import Mathlib

/-!
Verification of the weekly-compilation pipeline
(`shared-infra/weekly-compilation.py`), shallowly embedded in Lean 4.

The embedding models:
* the checkpoint deduplication gate (`_should_process_file`) and the
  per-run checkpoint state (`self.checkpoint` / `self.new_checkpoint`);
* the crash-safety trace of `_save_checkpoint` (temp write + atomic replace);
* the compilation step sequence of `create_compilation` (manifest write,
  bundle checksum, database write, audit write, checkpoint save) together
  with `main`'s error handling and exit codes;
* the per-entry copy logic of `create_compilation`'s file loop;
* the bundle-checksum input stream of `_calculate_compilation_checksum`;
* the JSON serializer plus `_validate_data_exclusivity` and the
  validation loop in `collect_framework_data`.

File contents are modelled as byte lists / strings, SHA-256 as the stream
of bytes fed to it (equal streams yield equal digests), the filesystem and
I/O failures as explicit oracles in an environment record.
-/

namespace WeeklyCompilation

/-! ## Checkpoint state and the deduplication gate -/

/-- Per-run checkpoint state of `WeeklyCompiler`: `checkpoint` is the
`files` map loaded from the previous run (`self.checkpoint["files"]`),
`new_checkpoint` is the in-progress map (`self.new_checkpoint["files"]`),
which `__init__` starts empty.  Maps are association lists with
most-recent-write-first lookup, mirroring Python dict assignment. -/
structure CkptState where
  checkpoint : List (String × String)
  new_checkpoint : List (String × String)
deriving DecidableEq

/-- `WeeklyCompiler._should_process_file`: compare the file's current
hash with the one stored in the loaded checkpoint; on equality skip
(return `false`, state untouched); otherwise record the current hash into
the in-progress checkpoint and return `true`. -/
def should_process_file (st : CkptState) (path hash : String) :
    Bool × CkptState :=
  match st.checkpoint.lookup path with
  | some prev =>
    if prev = hash then (false, st)
    else (true, { st with new_checkpoint := (path, hash) :: st.new_checkpoint })
  | none => (true, { st with new_checkpoint := (path, hash) :: st.new_checkpoint })

/-- One collection pass over a list of `(absolute path, current hash)`
pairs, calling `should_process_file` on each in order, as the collector
routines do.  Returns the list of processed (new-or-changed) paths and
the final state. -/
def runFiles (st : CkptState) : List (String × String) → List String × CkptState
  | [] => ([], st)
  | (p, h) :: rest =>
    let r := should_process_file st p h
    let rr := runFiles r.2 rest
    (if r.1 then p :: rr.1 else rr.1, rr.2)

/-- A whole run's effect on the checkpoint: start from the loaded
previous `files` map and an empty `new_checkpoint` (as `__init__` does),
process every file, and return the processed paths together with the
`files` map that `_save_checkpoint` then persists (`self.new_checkpoint`). -/
def runCollection (prevFiles : List (String × String))
    (files : List (String × String)) : List String × List (String × String) :=
  ((runFiles ⟨prevFiles, []⟩ files).1,
    (runFiles ⟨prevFiles, []⟩ files).2.new_checkpoint)

/-! ## Crash-safety trace of the checkpoint save -/

/-- The two files `_save_checkpoint` touches: the canonical checkpoint
path (`last-run-checkpoint.json`) and the temporary path produced by
`with_suffix('.tmp')` (a distinct path).  `none` means the file is
absent; contents are byte lists. -/
structure CkptFiles where
  canonical : Option (List Nat)
  temp : Option (List Nat)
deriving DecidableEq

/-- Atomic filesystem steps of `_save_checkpoint`: opening the temp file
for writing (truncating it), appending one chunk of the serialized JSON,
and `Path.replace` (an atomic `os.replace` of the temp file onto the
canonical path). -/
inductive SaveStep where
  | openTemp
  | writeChunk (c : List Nat)
  | replace
deriving DecidableEq

/-- The step trace of `_save_checkpoint` when `json.dump` emits the
serialized checkpoint as the chunk list `chunks`: open the temp file,
write every chunk, then atomically replace the canonical path. -/
def save_checkpoint_steps (chunks : List (List Nat)) : List SaveStep :=
  SaveStep.openTemp :: chunks.map SaveStep.writeChunk ++ [SaveStep.replace]

/-- Effect of one step on the two files. -/
def applyStep (fs : CkptFiles) : SaveStep → CkptFiles
  | .openTemp => { fs with temp := some [] }
  | .writeChunk c => { fs with temp := some ((fs.temp.getD []) ++ c) }
  | .replace => { canonical := fs.temp, temp := none }

/-- Run a list of steps; a crash is modelled by running only a prefix. -/
def runSteps (fs : CkptFiles) (steps : List SaveStep) : CkptFiles :=
  steps.foldl applyStep fs

/-! ## File entries and the compilation pipeline -/

/-- The tenant space name (`FRAMEWORK_SPACE`). -/
def FRAMEWORK_SPACE : String := "HUMAN-AI-FRAMEWORK"

/-- A collector-produced file-entry dictionary.  Every field is optional,
mirroring the duck-typed Python dicts: `error` is present exactly on
`failed` entries, `status` may be absent (`.get('status', 'unknown')`). -/
structure FileEntry where
  path : Option String
  size : Option Nat
  hash : Option String
  status : Option String
  error : Option String
deriving DecidableEq

/-- The record appended to `copied_files` for every copied entry. -/
structure CopiedFile where
  original_path : String
  compiled_path : String
  size : Nat
  hash : String
deriving DecidableEq

/-- Filesystem oracles used by the copy loop: `Path.exists` and
`Path.resolve`. -/
structure FS where
  fileExists : String → Bool
  resolve : String → String

/-- Characters of the final path component: scan the characters, keeping
an accumulator that resets at every separator. -/
def lastComp : List Char → List Char → List Char
  | [], acc => acc.reverse
  | c :: rest, acc =>
    if c = '/' then lastComp rest [] else lastComp rest (c :: acc)

/-- `Path.name`: the final component of a path string. -/
def pathName (s : String) : String := String.mk (lastComp s.data [])

/-- One iteration of `create_compilation`'s inner file loop for source
`nm` under compilation directory `compDir`.  Returns `.ok none` when the
entry is skipped (`continue`), `.ok (some c)` when the file is copied and
recorded, and `.error ()` when the Python code would raise (a `KeyError`
on a missing `path` or `hash` key). -/
def processEntry (fs : FS) (compDir nm : String) (e : FileEntry) :
    Except Unit (Option CopiedFile) :=
  if e.error.isSome then .ok none
  else if e.status.getD "unknown" ≠ "new_or_changed" ∧
      e.status.getD "unknown" ≠ "processed" then .ok none
  else
    match e.path with
    | none => .error ()
    | some p =>
      if fs.fileExists p ∧ e.size.isSome then
        if fs.resolve p = fs.resolve (compDir ++ "/" ++ nm ++ "/" ++ pathName p)
        then .ok none
        else
          match e.hash, e.size with
          | some h, some sz =>
            .ok (some ⟨p, nm ++ "/" ++ pathName p, sz, h⟩)
          | _, _ => .error ()
      else .ok none

/-- The inner file loop over one source's `files` list. -/
def processFiles (fs : FS) (compDir nm : String) :
    List FileEntry → Except Unit (List CopiedFile)
  | [] => .ok []
  | e :: rest =>
    match processEntry fs compDir nm e with
    | .error _ => .error ()
    | .ok none => processFiles fs compDir nm rest
    | .ok (some c) =>
      match processFiles fs compDir nm rest with
      | .error _ => .error ()
      | .ok cs => .ok (c :: cs)

/-- The outer loop of `create_compilation` over the data sources: a
source contributes a `data_sources` manifest entry iff its dict has a
`files` key (`none` models a dict without one, e.g. an exclusivity error
record or the metrics dict). -/
def copySources (fs : FS) (compDir : String) :
    List (String × Option (List FileEntry)) →
      Except Unit (List (String × List CopiedFile))
  | [] => .ok []
  | (_, none) :: rest => copySources fs compDir rest
  | (nm, some files) :: rest =>
    match processFiles fs compDir nm files with
    | .error _ => .error ()
    | .ok cs =>
      match copySources fs compDir rest with
      | .error _ => .error ()
      | .ok dss => .ok ((nm, cs) :: dss)

/-- A row of the `compilations` table (dates as naturals). -/
structure Row where
  week_id : String
  date : Nat
deriving DecidableEq

/-- The compilation manifest (the fields the claims are about). -/
structure Manifest where
  week_id : String
  data_sources : List (String × List CopiedFile)
  exclusivity_verified : Bool
deriving DecidableEq

/-- Persistent state the run mutates: the checkpoint file's `files` map,
written manifests, `compilations` rows, and existing bundle directories
(identified by week id). -/
structure World where
  checkpointFile : List (String × String)
  manifests : List Manifest
  dbRows : List Row
  dirs : List String
deriving DecidableEq

/-- Run environment: inputs of the run plus success oracles for each
fallible I/O step (a `false` oracle means that step raises). -/
structure Env where
  space_name : String
  week_id : String
  today : Nat
  cutoff : Nat
  compDir : String
  fs : FS
  sources : List (String × Option (List FileEntry))
  newCheckpoint : List (String × String)
  manifestWriteOk : Bool
  checksumOk : Bool
  dbOk : Bool
  auditOk : Bool
  checkpointOk : Bool
  rmtreeOk : String → Bool

/-- `WeeklyCompiler.create_compilation` after the copy loop: write the
manifest (with `exclusivity_verified` hard-coded to `True`), compute the
bundle checksum, upsert the tracking row, save the audit log, and finally
call `_save_checkpoint` — which catches every exception itself, so a
failed checkpoint write is logged and swallowed.  Returns the world
reflecting all effects performed before the first raising step, plus a
success flag (`false` means the exception propagates to `main`). -/
def create_compilation (env : Env) (w : World) : World × Bool :=
  match copySources env.fs env.compDir env.sources with
  | .error _ => (w, false)
  | .ok ds =>
    if ¬env.manifestWriteOk then (w, false)
    else
      let w1 : World := { w with manifests :=
        ⟨env.week_id, ds, true⟩ :: w.manifests }
      if ¬env.checksumOk then (w1, false)
      else if ¬env.dbOk then (w1, false)
      else
        let keep := w1.dbRows.filter (fun r => r.week_id ≠ env.week_id)
        let w2 : World := { w1 with dbRows := ⟨env.week_id, env.today⟩ :: keep }
        if ¬env.auditOk then (w2, false)
        else
          let w3 : World :=
            if env.checkpointOk then { w2 with checkpointFile := env.newCheckpoint }
            else w2
          (w3, true)

/-- The prune loop of `cleanup_old_compilations`: for each selected week,
remove its bundle directory if it exists (`shutil.rmtree`, unguarded — a
failure propagates, aborting the loop before the week's rows are
deleted), then delete the week's tracking rows. -/
def cleanupGo (env : Env) : List String → World → World × Bool
  | [], w => (w, true)
  | wk :: rest, w =>
    if wk ∈ w.dirs then
      if env.rmtreeOk wk then
        cleanupGo env rest
          { w with dirs := w.dirs.erase wk,
                   dbRows := w.dbRows.filter (fun r => r.week_id ≠ wk) }
      else (w, false)
    else
      cleanupGo env rest
        { w with dbRows := w.dbRows.filter (fun r => r.week_id ≠ wk) }

/-- `WeeklyCompiler.cleanup_old_compilations`: select the week ids of
tracking rows dated before the retention cutoff, then prune each. -/
def cleanup_old_compilations (env : Env) (w : World) : World × Bool :=
  cleanupGo env
    ((w.dbRows.filter (fun r => decide (r.date < env.cutoff))).map Row.week_id) w

/-- `main`: permission check in the `WeeklyCompiler` constructor, then
compilation, then retention cleanup; any propagating exception is caught
and the process exits 1, otherwise the success summary is printed and the
process exits 0.  Returns the final world and the exit code. -/
def mainRun (env : Env) (w : World) : World × Nat :=
  if env.space_name ≠ FRAMEWORK_SPACE then (w, 1)
  else
    let p := create_compilation env w
    if p.2 = false then (p.1, 1)
    else
      let q := cleanup_old_compilations env p.1
      if q.2 = false then (q.1, 1) else (q.1, 0)

deriving instance DecidableEq for Except

/-! ## Bundle checksum -/

/-- Order used by `sorted(compilation_dir.rglob('*'))`: compare by path. -/
def pathLe (a b : String × List Nat) : Prop := a.1 ≤ b.1

instance : DecidableRel pathLe :=
  fun a b => inferInstanceAs (Decidable (a.1 ≤ b.1))

instance : IsTotal (String × List Nat) pathLe :=
  ⟨fun a b => le_total a.1 b.1⟩

instance : IsTrans (String × List Nat) pathLe :=
  ⟨fun _ _ _ h1 h2 => le_trans h1 h2⟩

/-- Strict version of `pathLe`, used to compare sorted enumerations. -/
def pathLt (a b : String × List Nat) : Prop := a.1 < b.1

instance : IsAntisymm (String × List Nat) pathLt :=
  ⟨fun _ _ h h' => absurd (lt_trans h h') (lt_irrefl _)⟩

/-- Byte encoding of a relative path (`str(...).encode()`; code points
coincide with UTF-8 bytes on ASCII paths). -/
def pathBytes (s : String) : List Nat := s.data.map Char.toNat

/-- `WeeklyCompiler._calculate_compilation_checksum`, modelled as the
byte stream fed to SHA-256: files are enumerated as
`(relative path, content bytes)` pairs, sorted by path, and for each file
the path bytes then the content bytes are hashed in order.  Equal streams
yield equal digests, so checksum equality is stream equality. -/
def calculate_compilation_checksum (files : List (String × List Nat)) :
    List Nat :=
  (List.insertionSort pathLe files).foldl
    (fun acc e => acc ++ pathBytes e.1 ++ e.2) []

/-! ## JSON payloads and the exclusivity validator -/

/-- Python JSON values (`json`-serializable payloads): the collector's
source payloads. -/
inductive PyJson where
  | null
  | bool (b : Bool)
  | num (n : Int)
  | str (s : String)
  | arr (elems : List PyJson)
  | obj (fields : List (String × PyJson))

/-- Lowercase hex digit. -/
def hexDigit (n : Nat) : Char := "0123456789abcdef".data.getD n '0'

/-- Four lowercase hex digits, as in Python's `\uXXXX` escapes. -/
def hex4 (n : Nat) : String :=
  String.mk [hexDigit (n / 4096 % 16), hexDigit (n / 256 % 16),
    hexDigit (n / 16 % 16), hexDigit (n % 16)]

/-- `json.dumps` escaping of one character (`ensure_ascii` default):
quote, backslash and the short control escapes, `\uXXXX` for the other
control and all non-ASCII characters, everything else literal. -/
def escapeChar (c : Char) : String :=
  if c = '"' then "\\\""
  else if c = '\\' then "\\\\"
  else if c = '\n' then "\\n"
  else if c = '\t' then "\\t"
  else if c = '\r' then "\\r"
  else if c = '\x08' then "\\b"
  else if c = '\x0c' then "\\f"
  else if c.toNat < 32 ∨ c.toNat > 126 then "\\u" ++ hex4 c.toNat
  else String.singleton c

/-- A JSON string literal: quotes around the escaped characters. -/
def encStr (s : String) : String :=
  "\"" ++ String.join (s.data.map escapeChar) ++ "\""

mutual

/-- `json.dumps` with its default separators: objects as
`\x7b"k": v, ...\x7d` in insertion order, arrays as `[v, ...]`. -/
def dumps : PyJson → String
  | .null => "null"
  | .bool true => "true"
  | .bool false => "false"
  | .num n => toString n
  | .str s => encStr s
  | .arr xs => "[" ++ dumpsList xs ++ "]"
  | .obj kvs => "\x7b" ++ dumpsObj kvs ++ "\x7d"

/-- Array elements joined by `", "`. -/
def dumpsList : List PyJson → String
  | [] => ""
  | [x] => dumps x
  | x :: y :: rest => dumps x ++ ", " ++ dumpsList (y :: rest)

/-- Object fields `"k": v` joined by `", "`. -/
def dumpsObj : List (String × PyJson) → String
  | [] => ""
  | [(k, v)] => encStr k ++ ": " ++ dumps v
  | (k, v) :: p :: rest => encStr k ++ ": " ++ dumps v ++ ", " ++ dumpsObj (p :: rest)

end

/-- `str.lower()` (ASCII case folding, which covers the denylist). -/
def lowerStr (s : String) : String := String.mk (s.data.map Char.toLower)

/-- Does `s` start with `pat`? -/
def startsWithChars : List Char → List Char → Bool
  | _, [] => true
  | [], _ :: _ => false
  | c :: cs, p :: ps => (p == c) && startsWithChars cs ps

/-- Does `s` contain `pat` as a contiguous substring? -/
def hasSub : List Char → List Char → Bool
  | [], pat => pat.isEmpty
  | c :: cs, pat => startsWithChars (c :: cs) pat || hasSub cs pat

/-- Python's `in` on strings: contiguous substring containment. -/
def strContainsSub (s pat : String) : Bool := hasSub s.data pat.data

/-- The fixed denylist of foreign-tenant markers (`prohibited_spaces`). -/
def prohibited_spaces : List String :=
  ["general-space", "shared-space", "public-space",
    "common-infrastructure", "cross-space"]

/-- Python truthiness of a JSON value (`if source_data`). -/
def pyTruthy : PyJson → Bool
  | .null => false
  | .bool b => b
  | .num n => n != 0
  | .str s => !s.isEmpty
  | .arr xs => !xs.isEmpty
  | .obj kvs => !kvs.isEmpty

/-- Is the value a dict? (`isinstance(data, dict)`). -/
def isObjB : PyJson → Bool
  | .obj _ => true
  | _ => false

/-- `WeeklyCompiler._validate_data_exclusivity`: non-dicts pass; a dict
fails iff its lowercased serialization contains some denylisted marker. -/
def validate_data_exclusivity (data : PyJson) : Bool :=
  match data with
  | .obj _ =>
    !(prohibited_spaces.any fun m => strContainsSub (lowerStr (dumps data)) m)
  | _ => true

/-- The record substituted for a source that fails validation. -/
def exclusivity_error_record : PyJson :=
  .obj [("error", .str "exclusivity_validation_failed")]

/-- The validation loop of `collect_framework_data`: every truthy source
failing exclusivity validation is replaced by the error record; all other
sources are kept unchanged, and the run continues over all of them. -/
def collect_framework_data_validate (sources : List (String × PyJson)) :
    List (String × PyJson) :=
  sources.map fun nd =>
    if pyTruthy nd.2 && !validate_data_exclusivity nd.2 then
      (nd.1, exclusivity_error_record)
    else nd

/-- A trivial filesystem: every path exists, resolution is the identity. -/
def fsTriv : FS := ⟨fun _ => true, fun s => s⟩

/-- A run environment in which every I/O step succeeds except the
checkpoint save. -/
def envNoCkpt : Env :=
  ⟨FRAMEWORK_SPACE, "2025-W40", 100, 50, "human-ai-framework/week-2025-W40",
    fsTriv, [], [("a", "1")], true, true, true, true, false, fun _ => true⟩

/-- A run environment in which every step succeeds, including the
checkpoint save, but every bundle-directory deletion fails. -/
def envRmFail : Env :=
  ⟨FRAMEWORK_SPACE, "2025-W40", 100, 50, "human-ai-framework/week-2025-W40",
    fsTriv, [], [("a", "1")], true, true, true, true, true, fun _ => false⟩

/-- A fully successful run environment. -/
def envOk : Env :=
  ⟨FRAMEWORK_SPACE, "2025-W40", 100, 50, "human-ai-framework/week-2025-W40",
    fsTriv, [], [("a", "1")], true, true, true, true, true, fun _ => true⟩

/-- An empty initial world. -/
def w0 : World := ⟨[], [], [], []⟩

/-- A world holding one stale bundle (week 2025-W01, dated before the
retention cutoff of `envRmFail`) with its tracking row. -/
def wOld : World := ⟨[], [], [⟨"2025-W01", 5⟩], ["2025-W01"]⟩

/-! ## Theorems -/

/-- `should_process_file` never touches the loaded (previous) checkpoint. -/
theorem runFiles_checkpoint_const (files : List (String × String))
    (st : CkptState) : (runFiles st files).2.checkpoint = st.checkpoint := by
  induction files generalizing st with
  | nil => rfl
  | cons fh rest ih =>
    obtain ⟨p, h⟩ := fh
    simp only [runFiles]
    rw [ih]
    unfold should_process_file
    cases st.checkpoint.lookup p with
    | none => rfl
    | some prev =>
      by_cases hp : prev = h <;> simp [hp]

/-- Starting from an empty loaded checkpoint, every file is processed and
the in-progress checkpoint accumulates all pairs (most recent first). -/
theorem runFiles_empty_checkpoint (files : List (String × String))
    (st : CkptState) (hck : st.checkpoint = []) :
    (runFiles st files).1 = files.map Prod.fst ∧
      (runFiles st files).2.new_checkpoint = files.reverse ++ st.new_checkpoint := by
  induction files generalizing st with
  | nil => simp [runFiles]
  | cons fh rest ih =>
    obtain ⟨p, h⟩ := fh
    have hgate : should_process_file st p h =
        (true, { st with new_checkpoint := (p, h) :: st.new_checkpoint }) := by
      unfold should_process_file
      rw [hck]
      rfl
    simp only [runFiles, hgate]
    have := ih { st with new_checkpoint := (p, h) :: st.new_checkpoint } hck
    simp only [this.1, this.2]
    simp

/-- In a list of pairs with pairwise-distinct keys, `lookup` of a key
present in the list returns the paired value. -/
theorem lookup_eq_of_nodup_keys (files : List (String × String))
    (p h : String) (hnd : (files.map Prod.fst).Nodup)
    (hmem : (p, h) ∈ files) : files.lookup p = some h := by
  induction files with
  | nil => cases hmem
  | cons qg rest ih =>
    obtain ⟨q, g⟩ := qg
    simp only [List.map_cons, List.nodup_cons] at hnd
    rcases List.mem_cons.mp hmem with heq | hrest
    · obtain ⟨hpq, hhg⟩ := Prod.mk.injEq .. ▸ heq
      subst hpq; subst hhg
      simp [List.lookup]
    · have hne : p ≠ q := by
        intro hpq
        exact hnd.1 (hpq ▸ List.mem_map_of_mem Prod.fst hrest)
      have : (p == q) = false := beq_false_of_ne hne
      simp [List.lookup, this, ih hnd.2 hrest]

/-- If the loaded checkpoint already stores every file's current hash,
the run processes nothing. -/
theorem runFiles_skip_all (files : List (String × String)) (st : CkptState)
    (hall : ∀ p h, (p, h) ∈ files → st.checkpoint.lookup p = some h) :
    (runFiles st files).1 = [] := by
  induction files generalizing st with
  | nil => rfl
  | cons fh rest ih =>
    obtain ⟨p, h⟩ := fh
    have hgate : should_process_file st p h = (false, st) := by
      unfold should_process_file
      rw [hall p h (List.mem_cons_self _ _)]
      simp
    simp only [runFiles, hgate]
    exact ih st fun q g hqg => hall q g (List.mem_cons_of_mem _ hqg)

/-- Steps other than the atomic replace never touch the canonical path. -/
theorem canonical_const_of_no_replace (steps : List SaveStep) (fs : CkptFiles)
    (hno : ∀ s ∈ steps, s ≠ SaveStep.replace) :
    (runSteps fs steps).canonical = fs.canonical := by
  induction steps generalizing fs with
  | nil => rfl
  | cons s rest ih =>
    have hs := hno s (List.mem_cons_self _ _)
    have hrest : ∀ t ∈ rest, t ≠ SaveStep.replace := fun t ht =>
      hno t (List.mem_cons_of_mem _ ht)
    show (runSteps (applyStep fs s) rest).canonical = fs.canonical
    rw [ih (applyStep fs s) hrest]
    cases s with
    | openTemp => rfl
    | writeChunk c => rfl
    | replace => exact absurd rfl hs

/-- Writing the chunks appends them to the temp file, leaving the
canonical path alone. -/
theorem runSteps_writeChunks (cs : List (List Nat)) (can : Option (List Nat))
    (t : List Nat) :
    runSteps ⟨can, some t⟩ (cs.map SaveStep.writeChunk) =
      ⟨can, some (t ++ cs.flatten)⟩ := by
  induction cs generalizing t with
  | nil => simp [runSteps]
  | cons c rest ih =>
    show runSteps (applyStep ⟨can, some t⟩ (SaveStep.writeChunk c))
        (rest.map SaveStep.writeChunk) = _
    simp only [applyStep, Option.getD]
    rw [ih (t ++ c)]
    simp

/-- Running the whole save trace installs the full new content on the
canonical path. -/
theorem runSteps_full (fs : CkptFiles) (chunks : List (List Nat)) :
    (runSteps fs (save_checkpoint_steps chunks)).canonical =
      some chunks.flatten := by
  unfold save_checkpoint_steps runSteps
  rw [List.foldl_append]
  show (applyStep (List.foldl applyStep (applyStep fs .openTemp)
      (chunks.map SaveStep.writeChunk)) .replace).canonical = _
  have : applyStep fs .openTemp = ⟨fs.canonical, some []⟩ := rfl
  rw [this]
  have := runSteps_writeChunks chunks fs.canonical []
  unfold runSteps at this
  rw [this]
  rfl

/-- Claim C5: `_save_checkpoint` is crash-safe.  The save trace writes the
whole new checkpoint to the temp path and then performs one atomic
replace, so after any prefix of the trace (a crash at any point) the
canonical checkpoint path holds either the prior content or the complete
new content — never a partial write — and any crash strictly before the
final replace step leaves the prior checkpoint intact. -/
theorem save_checkpoint_crash_safe (fs : CkptFiles)
    (chunks : List (List Nat)) (k : Nat) :
    ((runSteps fs ((save_checkpoint_steps chunks).take k)).canonical =
        fs.canonical ∨
      (runSteps fs ((save_checkpoint_steps chunks).take k)).canonical =
        some chunks.flatten) ∧
    (k < (save_checkpoint_steps chunks).length →
      (runSteps fs ((save_checkpoint_steps chunks).take k)).canonical =
        fs.canonical) := by
  have hlen : (save_checkpoint_steps chunks).length = chunks.length + 2 := by
    simp [save_checkpoint_steps]
  by_cases hk : k ≤ chunks.length + 1
  · have hpre : (save_checkpoint_steps chunks).take k =
        (SaveStep.openTemp :: chunks.map SaveStep.writeChunk).take k := by
      unfold save_checkpoint_steps
      exact List.take_append_of_le_length (by simpa using hk)
    have hnorep : ∀ s ∈ (save_checkpoint_steps chunks).take k,
        s ≠ SaveStep.replace := by
      rw [hpre]
      intro s hs
      have hs' := List.take_subset _ _ hs
      rcases List.mem_cons.mp hs' with rfl | hmap
      · intro h; cases h
      · obtain ⟨c, _, rfl⟩ := List.mem_map.mp hmap
        intro h; cases h
    have hc := canonical_const_of_no_replace _ fs hnorep
    exact ⟨Or.inl hc, fun _ => hc⟩
  · have htake : (save_checkpoint_steps chunks).take k =
        save_checkpoint_steps chunks :=
      List.take_of_length_le (by omega)
    rw [htake]
    exact ⟨Or.inr (runSteps_full fs chunks), fun hlt => absurd hlt (by omega)⟩

/-- Witness for `save_checkpoint_crash_safe`: crash after the temp write
but before the replace, starting from a canonical checkpoint holding
byte 1 and new content bytes 2, 3. -/
theorem save_checkpoint_crash_safe_witness :
    2 < (save_checkpoint_steps [[2], [3]]).length ∧
      (runSteps ⟨some [1], none⟩
        ((save_checkpoint_steps [[2], [3]]).take 2)).canonical = some [1] :=
  ⟨by decide,
    (save_checkpoint_crash_safe ⟨some [1], none⟩ [[2], [3]] 2).2 (by decide)⟩

/-- Claim C1: after a run, the file map that `_save_checkpoint` persists
starts empty and is only written by `_should_process_file`'s true branch,
so a file skipped as unchanged loses its entry: with previous checkpoint
mapping `p` to `h` and the file `p` still having hash `h`, the run skips
`p` and the saved map no longer contains `p` — the persisted checkpoint
does NOT retain the prior hash of unchanged files, contradicting the
claimed invariant (and the code's own stated purpose of preventing
future duplicate processing). -/
theorem checkpoint_drops_unchanged_entry :
    (runCollection [("p", "h")] [("p", "h")]).1 = [] ∧
      (runCollection [("p", "h")] [("p", "h")]).2.lookup "p" = none := by
  constructor <;> rfl

/-- Claim C3 (counterexample): two consecutive runs with no filesystem
change in between — previous checkpoint maps `p` to `h`, file `p` has
hash `h` throughout.  The first run skips `p` and saves a checkpoint
without it; the second run therefore reports `p` as new-or-changed.
The second run yields one `new_or_changed` entry, not zero, refuting the
claimed unconditional idempotence. -/
theorem second_run_not_idempotent :
    (runCollection (runCollection [("p", "h")] [("p", "h")]).2
        [("p", "h")]).1 = ["p"] ∧
      ["p"] ≠ ([] : List String) := by
  constructor
  · rfl
  · simp

/-- Claim C3 (amended): the gate returns `false` (skip) iff the hash
stored in the loaded checkpoint for the path equals the current hash;
otherwise it records the current hash into the in-progress checkpoint
(leaving the loaded checkpoint untouched) and returns `true`.  The
second of two runs with no filesystem changes yields zero
`new_or_changed` entries PROVIDED the first run began from an empty
checkpoint; in general a file skipped as unchanged is dropped from the
saved checkpoint and is re-processed two runs later. -/
theorem should_process_file_spec :
    (∀ st p h, (should_process_file st p h).1 = false ↔
        st.checkpoint.lookup p = some h) ∧
    (∀ st p h, (should_process_file st p h).1 = true →
        (should_process_file st p h).2.new_checkpoint.lookup p = some h ∧
          (should_process_file st p h).2.checkpoint = st.checkpoint) ∧
    (∀ files : List (String × String), (files.map Prod.fst).Nodup →
        (runCollection (runCollection [] files).2 files).1 = []) := by
  refine ⟨?_, ?_, ?_⟩
  · intro st p h
    unfold should_process_file
    cases hl : st.checkpoint.lookup p with
    | none => simp
    | some prev =>
      by_cases hp : prev = h <;> simp [hp]
  · intro st p h hres
    unfold should_process_file at hres ⊢
    cases hl : st.checkpoint.lookup p with
    | none => simp [List.lookup]
    | some prev =>
      rw [hl] at hres
      by_cases hp : prev = h
      · simp [hp] at hres
      · simp [hp, List.lookup]
  · intro files hnd
    have hfirst := runFiles_empty_checkpoint files ⟨[], []⟩ rfl
    have hsaved : (runCollection [] files).2 = files.reverse := by
      show (runFiles ⟨[], []⟩ files).2.new_checkpoint = files.reverse
      rw [hfirst.2]
      simp
    rw [hsaved]
    show (runFiles ⟨files.reverse, []⟩ files).1 = []
    apply runFiles_skip_all
    intro p h hmem
    exact lookup_eq_of_nodup_keys files.reverse p h
      (by rw [List.map_reverse]; exact List.nodup_reverse.mpr hnd)
      (List.mem_reverse.mpr hmem)

/-- Witness for `should_process_file_spec` at concrete inputs. -/
theorem should_process_file_spec_witness :
    (should_process_file ⟨[("a", "1")], []⟩ "a" "1").1 = false ∧
      (should_process_file ⟨[("a", "1")], []⟩ "a" "2").2.new_checkpoint.lookup
        "a" = some "2" ∧
      (runCollection (runCollection [] [("a", "1"), ("b", "2")]).2
        [("a", "1"), ("b", "2")]).1 = [] := by
  refine ⟨?_, ?_, ?_⟩
  · exact (should_process_file_spec.1 ⟨[("a", "1")], []⟩ "a" "1").mpr rfl
  · exact ((should_process_file_spec.2.1 ⟨[("a", "1")], []⟩ "a" "2") rfl).1
  · exact should_process_file_spec.2.2 [("a", "1"), ("b", "2")] (by decide)

/-- Claim C2: `_save_checkpoint` is invoked only after the manifest
write, the bundle-checksum computation and the tracking-database write
have all succeeded: if any of them raises, `create_compilation` fails and
the persisted checkpoint is left unchanged, and `main` exits 1 with the
checkpoint still unchanged. -/
theorem checkpoint_save_only_after_success (env : Env) (w : World)
    (h : env.manifestWriteOk = false ∨ env.checksumOk = false ∨
      env.dbOk = false) :
    (create_compilation env w).2 = false ∧
      (create_compilation env w).1.checkpointFile = w.checkpointFile ∧
      (mainRun env w).2 = 1 ∧
      (mainRun env w).1.checkpointFile = w.checkpointFile := by
  have hc : (create_compilation env w).2 = false ∧
      (create_compilation env w).1.checkpointFile = w.checkpointFile := by
    unfold create_compilation
    cases hcp : copySources env.fs env.compDir env.sources with
    | error e => exact ⟨rfl, rfl⟩
    | ok ds =>
      rcases h with h | h | h <;>
        by_cases h1 : env.manifestWriteOk <;>
        by_cases h2 : env.checksumOk <;>
        simp_all
  refine ⟨hc.1, hc.2, ?_, ?_⟩
  · unfold mainRun
    by_cases hs : env.space_name ≠ FRAMEWORK_SPACE
    · simp [hs]
    · simp [hs, hc.1]
  · unfold mainRun
    by_cases hs : env.space_name ≠ FRAMEWORK_SPACE
    · simp [hs]
    · simp [hs, hc.1, hc.2]

/-- Witness for `checkpoint_save_only_after_success`: a run whose
database write fails. -/
theorem checkpoint_save_only_after_success_witness :
    (create_compilation
        ⟨FRAMEWORK_SPACE, "2025-W40", 100, 50, "d", fsTriv, [], [("a", "1")],
          true, true, false, true, true, fun _ => true⟩ w0).2 = false ∧
      (create_compilation
        ⟨FRAMEWORK_SPACE, "2025-W40", 100, 50, "d", fsTriv, [], [("a", "1")],
          true, true, false, true, true, fun _ => true⟩ w0).1.checkpointFile =
        w0.checkpointFile := by
  have := checkpoint_save_only_after_success
    ⟨FRAMEWORK_SPACE, "2025-W40", 100, 50, "d", fsTriv, [], [("a", "1")],
      true, true, false, true, true, fun _ => true⟩ w0
    (Or.inr (Or.inr rfl))
  exact ⟨this.1, this.2.1⟩

/-- Claim C4 (counterexample): a run in which the checkpoint save fails
but everything else succeeds.  `_save_checkpoint` catches its own
exception and only logs it, so `main` still prints the success summary
and exits 0 even though the persisted checkpoint was never advanced. -/
theorem reports_success_despite_checkpoint_failure :
    envNoCkpt.checkpointOk = false ∧
      (mainRun envNoCkpt w0).2 = 0 ∧
      (mainRun envNoCkpt w0).1.checkpointFile ≠ envNoCkpt.newCheckpoint := by
  refine ⟨rfl, by decide, by decide⟩

/-- Claim C4 (amended): the run reports success whenever the copy loop,
manifest write, checksum, database write and audit save succeed,
regardless of whether the checkpoint save succeeds: a checkpoint-save
failure is swallowed inside `_save_checkpoint`, so a successful report
does not guarantee that the checkpoint advanced. -/
theorem compilation_success_ignores_checkpoint_failure (env : Env)
    (w : World) (h1 : env.manifestWriteOk = true)
    (h2 : env.checksumOk = true) (h3 : env.dbOk = true)
    (h4 : env.auditOk = true)
    (h5 : ∃ ds, copySources env.fs env.compDir env.sources = .ok ds) :
    (create_compilation env w).2 = true ∧
      (env.checkpointOk = false →
        (create_compilation env w).1.checkpointFile = w.checkpointFile) := by
  obtain ⟨ds, hds⟩ := h5
  unfold create_compilation
  rw [hds]
  simp only [h1, h2, h3, h4]
  refine ⟨by simp, fun hck => by simp [hck]⟩

/-- Witness for `compilation_success_ignores_checkpoint_failure`. -/
theorem compilation_success_ignores_checkpoint_failure_witness :
    (create_compilation envNoCkpt w0).2 = true ∧
      (create_compilation envNoCkpt w0).1.checkpointFile =
        w0.checkpointFile := by
  have := compilation_success_ignores_checkpoint_failure envNoCkpt w0
    rfl rfl rfl rfl ⟨[], rfl⟩
  exact ⟨this.1, this.2 rfl⟩

/-- Claim C7: the per-entry copy rules of `create_compilation`.  An entry
carrying an `error` field is never copied; a copied entry necessarily has
status `new_or_changed` or `processed`, and its record carries exactly the
entry's path as `original_path`, the destination relative to the bundle
directory as `compiled_path`, and the entry's `size` and `hash`; and an
eligible entry whose resolved source path equals its resolved destination
path is skipped (self-copy guard). -/
theorem copy_entry_rules (fs : FS) (compDir nm : String) (e : FileEntry) :
    (e.error.isSome → processEntry fs compDir nm e = .ok none) ∧
    (∀ c, processEntry fs compDir nm e = .ok (some c) →
      (e.status = some "new_or_changed" ∨ e.status = some "processed") ∧
        e.path = some c.original_path ∧ e.size = some c.size ∧
        e.hash = some c.hash ∧
        c.compiled_path = nm ++ "/" ++ pathName c.original_path) ∧
    (∀ p, e.error = none → e.path = some p →
      ¬(e.status.getD "unknown" ≠ "new_or_changed" ∧
          e.status.getD "unknown" ≠ "processed") →
      fs.fileExists p = true → e.size.isSome →
      fs.resolve p = fs.resolve (compDir ++ "/" ++ nm ++ "/" ++ pathName p) →
      processEntry fs compDir nm e = .ok none) := by
  refine ⟨?_, ?_, ?_⟩
  · intro he
    unfold processEntry
    simp [he]
  · intro c hc
    unfold processEntry at hc
    by_cases he : e.error.isSome
    · simp [he] at hc
    · simp only [he, if_false, Bool.false_eq_true] at hc
      by_cases hst : e.status.getD "unknown" ≠ "new_or_changed" ∧
          e.status.getD "unknown" ≠ "processed"
      · simp [hst] at hc
      · simp only [if_neg hst] at hc
        cases hp : e.path with
        | none => rw [hp] at hc; cases hc
        | some p =>
          rw [hp] at hc
          by_cases hex : fs.fileExists p ∧ e.size.isSome
          · simp only [if_pos hex] at hc
            by_cases hres : fs.resolve p =
                fs.resolve (compDir ++ "/" ++ nm ++ "/" ++ pathName p)
            · simp [hres] at hc
            · simp only [if_neg hres] at hc
              cases hh : e.hash with
              | none => rw [hh] at hc; cases hc
              | some hv =>
                cases hsz : e.size with
                | none => rw [hh, hsz] at hc; cases hc
                | some sz =>
                  rw [hh, hsz] at hc
                  obtain rfl : c = ⟨p, nm ++ "/" ++ pathName p, sz, hv⟩ := by
                    cases hc; rfl
                  refine ⟨?_, rfl, hsz.symm ▸ rfl, hh.symm ▸ rfl, rfl⟩
                  push_neg at hst
                  rcases Decidable.em
                      (e.status.getD "unknown" = "new_or_changed") with h | h
                  · left
                    cases hs0 : e.status with
                    | none => rw [hs0] at h; simp at h
                    | some s => rw [hs0] at h; simp at h; rw [h]
                  · right
                    have h2 := hst h
                    cases hs0 : e.status with
                    | none => rw [hs0] at h2; simp at h2
                    | some s => rw [hs0] at h2; simp at h2; rw [h2]
          · simp [hex] at hc
  · intro p herr hp hst hex hsz hres
    unfold processEntry
    have : e.error.isSome = false := by rw [herr]; rfl
    simp only [this, Bool.false_eq_true, if_false, if_neg hst, hp]
    rw [if_pos ⟨hex, hsz⟩, if_pos hres]

/-- Witness for `copy_entry_rules`: a failed entry is skipped, a good
entry's copy record carries the four fields, and a self-copy is skipped. -/
theorem copy_entry_rules_witness :
    processEntry fsTriv "comp" "copilot_logs"
        ⟨some "x", some 1, some "h", some "failed", some "boom"⟩ = .ok none ∧
      ((⟨some "logs/a.log", some 10, some "abcd", some "new_or_changed",
          none⟩ : FileEntry).status = some "new_or_changed" ∨
        (⟨some "logs/a.log", some 10, some "abcd", some "new_or_changed",
          none⟩ : FileEntry).status = some "processed") ∧
      processEntry (⟨fun _ => true, fun _ => "X"⟩ : FS) "comp" "copilot_logs"
        ⟨some "logs/a.log", some 10, some "abcd", some "new_or_changed",
          none⟩ = .ok none := by
  refine ⟨?_, ?_, ?_⟩
  · exact (copy_entry_rules fsTriv "comp" "copilot_logs"
      ⟨some "x", some 1, some "h", some "failed", some "boom"⟩).1 rfl
  · exact ((copy_entry_rules fsTriv "comp" "copilot_logs"
      ⟨some "logs/a.log", some 10, some "abcd", some "new_or_changed",
        none⟩).2.1 ⟨"logs/a.log", "copilot_logs/a.log", 10, "abcd"⟩
      (by decide)).1
  · exact (copy_entry_rules (⟨fun _ => true, fun _ => "X"⟩ : FS) "comp"
      "copilot_logs"
      ⟨some "logs/a.log", some 10, some "abcd", some "new_or_changed",
        none⟩).2.2 "logs/a.log" rfl rfl (by decide) rfl rfl rfl

/-- On a directory-deletion failure for a selected bundle, the prune loop
aborts with the failing bundle's tracking rows still present. -/
theorem cleanupGo_fail (env : Env) (old : List String) (w : World)
    (wk : String) (hmem : wk ∈ old) (hdir : wk ∈ w.dirs)
    (hrm : env.rmtreeOk wk = false) :
    (cleanupGo env old w).2 = false ∧
      ∀ r ∈ w.dbRows, r.week_id = wk → r ∈ (cleanupGo env old w).1.dbRows := by
  induction old generalizing w with
  | nil => cases hmem
  | cons wk' rest ih =>
    by_cases hq : wk' = wk
    · subst hq
      unfold cleanupGo
      rw [if_pos hdir, if_neg (by rw [hrm]; exact Bool.false_ne_true)]
      exact ⟨rfl, fun r hr _ => hr⟩
    · have hmem' : wk ∈ rest := by
        rcases List.mem_cons.mp hmem with rfl | h
        · exact absurd rfl hq
        · exact h
      have hne : wk ≠ wk' := fun h => hq h.symm
      unfold cleanupGo
      by_cases hd' : wk' ∈ w.dirs
      · by_cases hr' : env.rmtreeOk wk'
        · rw [if_pos hd', if_pos hr']
          have hdir2 : wk ∈ (w.dirs.erase wk') :=
            (List.mem_erase_of_ne hne).mpr hdir
          have hrec := ih ⟨w.checkpointFile, w.manifests,
            w.dbRows.filter (fun r => r.week_id ≠ wk'), w.dirs.erase wk'⟩
            hmem' hdir2
          refine ⟨hrec.1, fun r hr hwk => ?_⟩
          refine hrec.2 r ?_ hwk
          refine List.mem_filter.mpr ⟨hr, ?_⟩
          simp only [decide_eq_true_eq]
          rw [hwk]
          exact hne
        · rw [if_pos hd', if_neg hr']
          exact ⟨rfl, fun r hr _ => hr⟩
      · rw [if_neg hd']
        have hrec := ih ⟨w.checkpointFile, w.manifests,
          w.dbRows.filter (fun r => r.week_id ≠ wk'), w.dirs⟩ hmem' hdir
        refine ⟨hrec.1, fun r hr hwk => ?_⟩
        refine hrec.2 r ?_ hwk
        refine List.mem_filter.mpr ⟨hr, ?_⟩
        simp only [decide_eq_true_eq]
        rw [hwk]
        exact hne

/-- Claim C9 (counterexample): with one stale bundle whose directory
deletion fails, the exception propagates from `cleanup_old_compilations`
to `main`'s generic handler and the run exits 1 — a directory-deletion
failure IS fatal to the run (though the bundle's row survives). -/
theorem retention_failure_is_fatal :
    (mainRun envRmFail wOld).2 = 1 ∧
      (⟨"2025-W01", 5⟩ : Row) ∈ (mainRun envRmFail wOld).1.dbRows := by
  refine ⟨by decide, by decide⟩

/-- Claim C9 (amended): a failed deletion of a selected bundle directory
aborts the retention cleanup (the failure propagates and the run exits
with an error), but the failing bundle's tracking rows are deleted only
after a successful directory deletion, so they survive and the bundle is
retried on a future prune attempt. -/
theorem retention_failure_keeps_rows (env : Env) (w : World) (wk : String)
    (hsel : wk ∈ (w.dbRows.filter
      (fun r => decide (r.date < env.cutoff))).map Row.week_id)
    (hdir : wk ∈ w.dirs) (hrm : env.rmtreeOk wk = false) :
    (cleanup_old_compilations env w).2 = false ∧
      ∀ r ∈ w.dbRows, r.week_id = wk →
        r ∈ (cleanup_old_compilations env w).1.dbRows :=
  cleanupGo_fail env _ w wk hsel hdir hrm

/-- Witness for `retention_failure_keeps_rows`. -/
theorem retention_failure_keeps_rows_witness :
    (cleanup_old_compilations envRmFail wOld).2 = false ∧
      (⟨"2025-W01", 5⟩ : Row) ∈
        (cleanup_old_compilations envRmFail wOld).1.dbRows := by
  have := retention_failure_keeps_rows envRmFail wOld "2025-W01"
    (by decide) (by decide) rfl
  exact ⟨this.1, this.2 ⟨"2025-W01", 5⟩ (by decide) rfl⟩

/-- The manifests after `create_compilation` are either untouched (a
failure before the manifest write) or extended by exactly one manifest
whose `exclusivity_verified` field is the constant `true`. -/
theorem create_compilation_manifests_cases (env : Env) (w : World) :
    (create_compilation env w).1.manifests = w.manifests ∨
      ∃ ds, (create_compilation env w).1.manifests =
        Manifest.mk env.week_id ds true :: w.manifests := by
  unfold create_compilation
  cases hcp : copySources env.fs env.compDir env.sources with
  | error e => exact Or.inl rfl
  | ok ds =>
    by_cases h1 : env.manifestWriteOk <;>
      by_cases h2 : env.checksumOk <;>
      by_cases h3 : env.dbOk <;>
      by_cases h4 : env.auditOk <;>
      by_cases h5 : env.checkpointOk <;>
      simp [h1, h2, h3, h4, h5]

/-- Claim C10: every manifest written by `create_compilation` has its
`exclusivity_verified` field equal to the constant `true`, regardless of
the inputs — in particular regardless of any validation outcome. -/
theorem manifest_exclusivity_always_true (env : Env) (w : World)
    (m : Manifest) (hm : m ∈ (create_compilation env w).1.manifests) :
    m ∈ w.manifests ∨ m.exclusivity_verified = true := by
  rcases create_compilation_manifests_cases env w with h | ⟨ds, h⟩
  · rw [h] at hm
    exact Or.inl hm
  · rw [h] at hm
    rcases List.mem_cons.mp hm with rfl | hm
    · exact Or.inr rfl
    · exact Or.inl hm

/-- Witness for `manifest_exclusivity_always_true`. -/
theorem manifest_exclusivity_always_true_witness :
    (⟨"2025-W40", [], true⟩ : Manifest) ∈
        (create_compilation envOk w0).1.manifests ∧
      ((⟨"2025-W40", [], true⟩ : Manifest) ∈ w0.manifests ∨
        (⟨"2025-W40", [], true⟩ : Manifest).exclusivity_verified = true) :=
  ⟨by decide,
    manifest_exclusivity_always_true envOk w0 ⟨"2025-W40", [], true⟩
      (by decide)⟩

/-- Claim C8: the bundle checksum hashes the sorted relative-path set and
file contents in sorted path order, so two enumerations of the same files
with the same contents (permutations of one another, with paths unique in
a filesystem tree) produce the same checksum stream — the checksum does
not depend on filesystem enumeration order. -/
theorem checksum_order_independent (l₁ l₂ : List (String × List Nat))
    (hperm : l₁.Perm l₂) (hnd : (l₁.map Prod.fst).Nodup) :
    calculate_compilation_checksum l₁ = calculate_compilation_checksum l₂ := by
  have hs1 : (List.insertionSort pathLe l₁).Sorted pathLe :=
    List.sorted_insertionSort pathLe l₁
  have hs2 : (List.insertionSort pathLe l₂).Sorted pathLe :=
    List.sorted_insertionSort pathLe l₂
  have hp : (List.insertionSort pathLe l₁).Perm (List.insertionSort pathLe l₂) :=
    (List.perm_insertionSort pathLe l₁).trans
      (hperm.trans (List.perm_insertionSort pathLe l₂).symm)
  have hnd1 : ((List.insertionSort pathLe l₁).map Prod.fst).Nodup :=
    (((List.perm_insertionSort pathLe l₁).map Prod.fst).nodup_iff).mpr hnd
  have hnd2 : ((List.insertionSort pathLe l₂).map Prod.fst).Nodup :=
    (hp.map Prod.fst).nodup_iff.symm.mpr hnd1
  have hlt1 : (List.insertionSort pathLe l₁).Pairwise pathLt := by
    have hne := List.pairwise_map.mp hnd1
    exact (hs1.and hne).imp fun h => lt_of_le_of_ne h.1 h.2
  have hlt2 : (List.insertionSort pathLe l₂).Pairwise pathLt := by
    have hne := List.pairwise_map.mp hnd2
    exact (hs2.and hne).imp fun h => lt_of_le_of_ne h.1 h.2
  have heq : List.insertionSort pathLe l₁ = List.insertionSort pathLe l₂ :=
    List.eq_of_perm_of_sorted hp hlt1 hlt2
  unfold calculate_compilation_checksum
  rw [heq]

/-- Witness for `checksum_order_independent`: the same two files
enumerated in opposite orders produce the same checksum stream. -/
theorem checksum_order_independent_witness :
    calculate_compilation_checksum [("b.txt", [2]), ("a.txt", [1])] =
      calculate_compilation_checksum [("a.txt", [1]), ("b.txt", [2])] :=
  checksum_order_independent [("b.txt", [2]), ("a.txt", [1])]
    [("a.txt", [1]), ("b.txt", [2])] (by decide) (by decide)

/-- A payload that fails exclusivity validation is a non-empty dict and
hence truthy, so the collector's `if source_data and not ...` replacement
branch fires for every failing source. -/
theorem validate_false_truthy (d : PyJson)
    (hd : validate_data_exclusivity d = false) : pyTruthy d = true := by
  cases d with
  | obj kvs =>
    cases kvs with
    | nil =>
      exfalso
      have hv : validate_data_exclusivity (PyJson.obj []) = true := by
        simp [validate_data_exclusivity, dumps, dumpsObj, prohibited_spaces,
          strContainsSub, lowerStr, hasSub, startsWithChars]
      rw [hv] at hd
      cases hd
    | cons kv rest => rfl
  | null => simp [validate_data_exclusivity] at hd
  | bool b => simp [validate_data_exclusivity] at hd
  | num n => simp [validate_data_exclusivity] at hd
  | str s => simp [validate_data_exclusivity] at hd
  | arr xs => simp [validate_data_exclusivity] at hd

/-- Claim C6: the exclusivity validator returns `false` iff the
(dict-shaped, as every collector payload is) source payload's JSON
serialization, lowercased, contains some marker from the fixed denylist;
the collector's validation loop replaces every failing source's record
with the `exclusivity_validation_failed` error record, while every
passing source is kept unchanged — the run continues over all sources
rather than aborting. -/
theorem exclusivity_validator_spec :
    (∀ data : PyJson, isObjB data = true →
      (validate_data_exclusivity data = false ↔
        (prohibited_spaces.any fun m =>
          strContainsSub (lowerStr (dumps data)) m) = true)) ∧
    (∀ (sources : List (String × PyJson)) (n : String) (d : PyJson),
      (n, d) ∈ sources → validate_data_exclusivity d = false →
        (n, exclusivity_error_record) ∈
          collect_framework_data_validate sources) ∧
    (∀ (sources : List (String × PyJson)) (n : String) (d : PyJson),
      (n, d) ∈ sources → validate_data_exclusivity d = true →
        (n, d) ∈ collect_framework_data_validate sources) := by
  refine ⟨?_, ?_, ?_⟩
  · intro data hobj
    cases data with
    | obj kvs => simp [validate_data_exclusivity]
    | null => cases hobj
    | bool b => cases hobj
    | num n => cases hobj
    | str s => cases hobj
    | arr xs => cases hobj
  · intro sources n d hmem hval
    have ht := validate_false_truthy d hval
    have himg : (fun nd : String × PyJson =>
        if pyTruthy nd.2 && !validate_data_exclusivity nd.2 then
          (nd.1, exclusivity_error_record) else nd) (n, d) =
        (n, exclusivity_error_record) := by
      simp [ht, hval]
    exact himg ▸ List.mem_map_of_mem _ hmem
  · intro sources n d hmem hval
    have himg : (fun nd : String × PyJson =>
        if pyTruthy nd.2 && !validate_data_exclusivity nd.2 then
          (nd.1, exclusivity_error_record) else nd) (n, d) = (n, d) := by
      simp [hval]
    exact himg ▸ List.mem_map_of_mem _ hmem

/-- Witness for `exclusivity_validator_spec`: a payload mentioning
`Cross-Space` fails validation and is replaced; a clean payload passes
and survives unchanged. -/
theorem exclusivity_validator_spec_witness :
    validate_data_exclusivity
        (PyJson.obj [("k", PyJson.str "Cross-Space data")]) = false ∧
      ("s1", exclusivity_error_record) ∈
        collect_framework_data_validate
          [("s1", PyJson.obj [("k", PyJson.str "Cross-Space data")]),
            ("s2", PyJson.obj [("a", PyJson.bool true)])] ∧
      ("s2", PyJson.obj [("a", PyJson.bool true)]) ∈
        collect_framework_data_validate
          [("s1", PyJson.obj [("k", PyJson.str "Cross-Space data")]),
            ("s2", PyJson.obj [("a", PyJson.bool true)])] := by
  have hany : (prohibited_spaces.any fun m =>
      strContainsSub (lowerStr (dumps
        (PyJson.obj [("k", PyJson.str "Cross-Space data")]))) m) = true := by
    simp [dumps, dumpsObj, prohibited_spaces, strContainsSub, lowerStr,
      encStr, escapeChar]
    decide
  have hbad := (exclusivity_validator_spec.1
    (PyJson.obj [("k", PyJson.str "Cross-Space data")]) rfl).mpr hany
  have hgood : validate_data_exclusivity
      (PyJson.obj [("a", PyJson.bool true)]) = true := by
    simp [validate_data_exclusivity, dumps, dumpsObj, prohibited_spaces,
      strContainsSub, lowerStr, encStr, escapeChar]
    decide
  refine ⟨hbad, ?_, ?_⟩
  · exact exclusivity_validator_spec.2.1 _ "s1" _ (by simp) hbad
  · exact exclusivity_validator_spec.2.2 _ "s2" _ (by simp) hgood

end WeeklyCompilation
